import Mathlib

/-!
# Verification of the graphnet `DataConverter` conversion/batching engine

Shallow embedding of `src/graphnet/data/dataconverter.py` (class
`DataConverter`): save-strategy inference, the per-file processor with its
shared global event counter, sequential batching, wildcard-pattern grouping
(the `re.sub`-based group-key computation), and the orchestrator control flow
of `__call__` / `execute`, together with theorems settling the specification
claims about them.

Strings are modelled as Lean `String` / `List Char`; the shared
`multiprocessing.Value("i", 0)` counter is modelled as a `Nat` threaded
through explicit state; frames read from an I3 file are modelled as
`Option φ` (`none` = a record whose `pop_physics` raises and is skipped).
-/

/-- `SaveStrategy`: the three save strategies of `SAVE_STRATEGIES`
(`dataconverter.py` lines 38-42): `"1:1"`, `"sequential_batched"`,
`"pattern_batched"`. -/
inductive SaveStrategy where
  | oneToOne
  | sequentialBatched
  | patternBatched
deriving DecidableEq, Repr

/-- Errors raised by `DataConverter._infer_save_strategy` (lines 389-431):
the `assert "*" in input_file_batch_pattern` failure (the spec's
`InvalidPatternError`) and the `assert` that both `nb_files_to_batch` and
`sequential_batch_pattern` are given (the spec's
`IncompleteConfigurationError`). -/
inductive ConfigError where
  | invalidPattern
  | incompleteConfiguration
deriving DecidableEq, Repr

/-- Embedding of `DataConverter._infer_save_strategy` (lines 389-431).
Returns the inferred strategy together with the list of argument names for
which an "ignored" warning is logged, or the configuration error raised.
The order of checks mirrors the source: with `input_file_batch_pattern`
given, the wildcard `assert` fires before any warning is logged; warnings
are logged for `sequential_batch_pattern` first, then `nb_files_to_batch`. -/
def inferSaveStrategy (nbFilesToBatch : Option Nat)
    (sequentialBatchPattern : Option String)
    (inputFileBatchPattern : Option String) :
    Except ConfigError (SaveStrategy × List String) :=
  match inputFileBatchPattern with
  | some pat =>
      if pat.data.contains '*' then
        Except.ok (SaveStrategy.patternBatched,
          (if sequentialBatchPattern.isSome then ["sequential_batch_pattern"] else [])
            ++ (if nbFilesToBatch.isSome then ["nb_files_to_batch"] else []))
      else
        Except.error ConfigError.invalidPattern
  | none =>
      if nbFilesToBatch.isSome || sequentialBatchPattern.isSome then
        if nbFilesToBatch.isSome && sequentialBatchPattern.isSome then
          Except.ok (SaveStrategy.sequentialBatched, [])
        else
          Except.error ConfigError.incompleteConfiguration
      else
        Except.ok (SaveStrategy.oneToOne, [])

/-- Save-strategy selection as described by the specification's three
priority rules (spec §4.3), written independently of the source for the
refinement theorem: rule 1 (wildcard pattern given, must contain a
wildcard, other options ignored with a warning), rule 2 (either sequential
option given requires both), rule 3 (nothing given means per-file). -/
def strategySpecRules (nbFilesToBatch : Option Nat)
    (sequentialBatchPattern : Option String)
    (inputFileBatchPattern : Option String) :
    Except ConfigError (SaveStrategy × List String) :=
  match inputFileBatchPattern with
  | some pat =>
      if pat.data.contains '*' then
        Except.ok (SaveStrategy.patternBatched,
          (if sequentialBatchPattern.isSome then ["sequential_batch_pattern"] else [])
            ++ (if nbFilesToBatch.isSome then ["nb_files_to_batch"] else []))
      else
        Except.error ConfigError.invalidPattern
  | none =>
      match nbFilesToBatch, sequentialBatchPattern with
      | none, none => Except.ok (SaveStrategy.oneToOne, [])
      | some _, some _ => Except.ok (SaveStrategy.sequentialBatched, [])
      | _, _ => Except.error ConfigError.incompleteConfiguration

/-- A row of one extracted table: field name to value (the Python `dict`
produced by one extractor for one frame). -/
abbrev Row : Type := List (String × Int)

/-- `data_dict[table][self._index_column] = index` (line 357): overwrite the
binding for `k` if present, else append it, as Python `dict` assignment
does. -/
def setField (r : Row) (k : String) (v : Int) : Row :=
  if r.any (fun p => p.1 = k) then
    r.map (fun p => if p.1 = k then (k, v) else p)
  else
    r ++ [(k, v)]

/-- The `data_dict` built for one successfully read frame
(lines 346-357): `OrderedDict(zip(self._table_names, results))` followed by
attaching the freshly drawn global index to every table under the index
column. `exts` is the extractor collection: `(name, extraction function)`
pairs. -/
def recordOf {φ : Type} (exts : List (String × (φ → Row))) (idxCol : String)
    (ix : Nat) (f : φ) : List (String × Row) :=
  (exts.map (fun e => (e.1, e.2 f))).map
    (fun t => (t.1, setField t.2 idxCol (Int.ofNat ix)))

/-- Embedding of the read loop of `DataConverter._process_file`
(lines 338-359): frames are popped in order; a frame whose read raises
(`none`) is skipped by the bare `except: continue`; for each readable frame
the extractors run, the shared counter is read and incremented under its
lock, and the index is attached to every table. Returns the accumulated
record list (in read order) and the final counter value. -/
def processFile {φ : Type} (exts : List (String × (φ → Row))) (idxCol : String)
    (c : Nat) : List (Option φ) → List (List (String × Row)) × Nat
  | [] => ([], c)
  | none :: rest => processFile exts idxCol c rest
  | some f :: rest =>
      let out := processFile exts idxCol (c + 1) rest
      (recordOf exts idxCol c f :: out.1, out.2)

/-- Number of frames of a file that are readable (whose `pop_physics` does
not raise). -/
def countReadable {φ : Type} (frames : List (Option φ)) : Nat :=
  (frames.filterMap id).length

-- ## Basic lemmas about `processFile`

theorem processFile_counter {φ : Type} (exts : List (String × (φ → Row)))
    (idxCol : String) (c : Nat) (frames : List (Option φ)) :
    (processFile exts idxCol c frames).2 = c + countReadable frames := by
  induction frames generalizing c with
  | nil => simp [processFile, countReadable]
  | cons hd tl ih =>
      cases hd with
      | none => simpa [processFile, countReadable] using ih c
      | some f =>
          have h := ih (c + 1)
          simp [processFile, countReadable] at h ⊢
          omega

theorem processFile_records {φ : Type} (exts : List (String × (φ → Row)))
    (idxCol : String) (c : Nat) (frames : List (Option φ)) :
    (processFile exts idxCol c frames).1 =
      List.zipWith (fun ix f => recordOf exts idxCol ix f)
        (List.range' c (countReadable frames)) (frames.filterMap id) := by
  induction frames generalizing c with
  | nil => simp [processFile, countReadable]
  | cons hd tl ih =>
      cases hd with
      | none => simpa [processFile, countReadable] using ih c
      | some f =>
          simp [processFile, countReadable, List.range'] at ih ⊢
          exact ih (c + 1)

theorem processFile_length {φ : Type} (exts : List (String × (φ → Row)))
    (idxCol : String) (c : Nat) (frames : List (Option φ)) :
    (processFile exts idxCol c frames).1.length = countReadable frames := by
  rw [processFile_records]
  simp [countReadable]

-- ## Interleaved multi-file run model for the global index counter

/-- Embedding of the flush loop of
`DataConverter._iterate_over_and_sequentially_batch_individual_files`
(lines 256-292).  `perFileRecords` holds, per input file `ix` (in order),
the records that `_process_file` returns for it; `dataset` is the
accumulator; `cnt` is the running value of the enumeration index `ix`.
After extending the accumulator with a file's records, the batch is flushed
(`save_data`) when `(ix + 1) % nb_files_to_batch == 0`; after the loop the
remainder is flushed only when `len(dataset) > 0`.  Returns the list of
flushed datasets, in flush order. -/
def seqBatchAux {ρ : Type} (k : Nat) (dataset : List ρ) (cnt : Nat) :
    List (List ρ) → List (List ρ)
  | [] => if dataset.isEmpty then [] else [dataset]
  | recs :: rest =>
      let dataset' := dataset ++ recs
      if (cnt + 1) % k = 0 then
        dataset' :: seqBatchAux k [] (cnt + 1) rest
      else
        seqBatchAux k dataset' (cnt + 1) rest

/-- The sequence of flushed datasets produced by the sequential-batched
strategy on the given per-file record lists (lines 256-292, started with an
empty accumulator and `ix = 0`). -/
def sequentialBatch {ρ : Type} (k : Nat) (perFileRecords : List (List ρ)) :
    List (List ρ) :=
  seqBatchAux k [] 0 perFileRecords

theorem seqBatchAux_chunk {ρ : Type} (k : Nat) (hk : 0 < k)
    (files : List (List ρ)) (dataset : List ρ) (cnt j : Nat)
    (hj : j < k) (hcnt : cnt % k = j) :
    seqBatchAux k dataset cnt files =
      if k - j ≤ files.length then
        (dataset ++ (files.take (k - j)).flatten)
          :: seqBatchAux k [] (cnt + (k - j)) (files.drop (k - j))
      else
        (if (dataset ++ files.flatten).isEmpty then []
         else [dataset ++ files.flatten]) := by
  induction files generalizing dataset cnt j with
  | nil =>
      have hkj0 : ¬ (k - j = 0) := by omega
      simp only [seqBatchAux, List.length_nil, Nat.le_zero, hkj0, if_false,
        List.flatten_nil, List.append_nil]
  | cons recs rest ih =>
      by_cases hfull : j + 1 = k
      · have hmod : (cnt + 1) % k = 0 := by
          rcases Nat.lt_or_ge 1 k with hk1 | hk1
          · rw [Nat.add_mod, hcnt, Nat.mod_eq_of_lt hk1, hfull, Nat.mod_self]
          · have hkone : k = 1 := by omega
            simp [hkone, Nat.mod_one]
        have hkj : k - j = 1 := by omega
        simp [seqBatchAux, hmod, hkj]
      · have hjk : j + 1 < k := by omega
        have hmod2 : (cnt + 1) % k = j + 1 := by
          rw [Nat.add_mod, hcnt, Nat.mod_eq_of_lt (by omega : 1 < k)]
          exact Nat.mod_eq_of_lt hjk
        have hne : ¬ ((cnt + 1) % k = 0) := by rw [hmod2]; omega
        have hs : k - j = (k - (j + 1)) + 1 := by omega
        have hrec := ih (dataset ++ recs) (cnt + 1) (j + 1) hjk hmod2
        simp only [seqBatchAux, if_neg hne]
        rw [hrec, hs]
        by_cases hlen : k - (j + 1) ≤ rest.length
        · have harith : cnt + (k - (j + 1) + 1) = cnt + 1 + (k - (j + 1)) := by omega
          simp [hlen, harith, List.take_succ_cons, List.drop_succ_cons,
            Nat.succ_le_succ_iff]
        · have hlen' : ¬ (k - (j + 1) + 1 ≤ (recs :: rest).length) := by
            simp only [List.length_cons]
            omega
          rw [if_neg hlen, if_neg hlen']
          simp only [List.flatten_cons, List.append_assoc]

/-- `seqBatchAux` with an empty accumulator only depends on the enumeration
counter through its residue modulo `k`. -/
theorem seqBatchAux_mod_zero {ρ : Type} (k : Nat) (hk : 0 < k) (cnt : Nat)
    (hcnt : cnt % k = 0) (files : List (List ρ)) :
    seqBatchAux k [] cnt files = sequentialBatch k files := by
  have H : ∀ (n : Nat) (files : List (List ρ)) (cnt : Nat),
      files.length = n → cnt % k = 0 →
      seqBatchAux k [] cnt files = sequentialBatch k files := by
    intro n
    induction n using Nat.strong_induction_on with
    | _ n ih =>
        intro files cnt hn hcnt
        have hchunk := seqBatchAux_chunk k hk files ([] : List ρ) cnt 0 hk hcnt
        have hchunk0 :=
          seqBatchAux_chunk k hk files ([] : List ρ) 0 0 hk (Nat.zero_mod k)
        unfold sequentialBatch
        rw [hchunk, hchunk0]
        by_cases hlen : k - 0 ≤ files.length
        · simp only [if_pos hlen]
          have hlt : (files.drop (k - 0)).length < n := by
            simp
            omega
          have hrec1 : seqBatchAux k [] (cnt + (k - 0)) (files.drop (k - 0))
              = sequentialBatch k (files.drop (k - 0)) :=
            ih _ hlt _ _ rfl (by simp [Nat.add_mod, hcnt])
          have hrec2 : seqBatchAux k [] (0 + (k - 0)) (files.drop (k - 0))
              = sequentialBatch k (files.drop (k - 0)) :=
            ih _ hlt _ _ rfl (by simp [Nat.add_mod])
          rw [hrec1, hrec2]
        · simp only [if_neg hlen]
  exact H files.length files cnt rfl hcnt

/-- Unfolding of the sequential-batched flush loop one full batch at a
time: with at least `k` files left, the first flush is exactly the joined
records of the first `k` files, and the loop continues on the rest. -/
theorem sequentialBatch_chunk {ρ : Type} (k : Nat) (hk : 0 < k)
    (files : List (List ρ)) (h : k ≤ files.length) :
    sequentialBatch k files
      = (files.take k).flatten :: sequentialBatch k (files.drop k) := by
  have hchunk := seqBatchAux_chunk k hk files ([] : List ρ) 0 0 hk (Nat.zero_mod k)
  have h' : k - 0 ≤ files.length := by omega
  rw [if_pos h'] at hchunk
  unfold sequentialBatch
  rw [hchunk]
  simp only [Nat.sub_zero, Nat.zero_add, List.nil_append]
  rw [seqBatchAux_mod_zero k hk k (Nat.mod_self k) (files.drop k)]
  rfl

/-- Unfolding of the flush loop on a final partial batch: fewer than `k`
files left means a single trailing flush, and only when those files
contributed at least one record. -/
theorem sequentialBatch_small {ρ : Type} (k : Nat) (hk : 0 < k)
    (files : List (List ρ)) (h : files.length < k) :
    sequentialBatch k files
      = if files.flatten.isEmpty then [] else [files.flatten] := by
  have hchunk := seqBatchAux_chunk k hk files ([] : List ρ) 0 0 hk (Nat.zero_mod k)
  have h' : ¬ (k - 0 ≤ files.length) := by omega
  rw [if_neg h'] at hchunk
  unfold sequentialBatch
  rw [hchunk]
  simp

/-- The sequential-batched flush sequence as the corrected specification
describes it: the files are cut into consecutive chunks of `k`; every full
chunk is flushed (even when its files contributed no records), and the
final partial chunk is flushed exactly when its files contributed at least
one record. -/
def flushChunksSpec {ρ : Type} (k : Nat) (files : List (List ρ)) :
    List (List ρ) :=
  if _hfull : 0 < k ∧ k ≤ files.length then
    (files.take k).flatten :: flushChunksSpec k (files.drop k)
  else
    if files.flatten.isEmpty then [] else [files.flatten]
termination_by files.length
decreasing_by
  simp only [List.length_drop]
  omega

theorem sequentialBatch_eq_flushChunksSpec {ρ : Type} (k : Nat) (hk : 0 < k)
    (files : List (List ρ)) :
    sequentialBatch k files = flushChunksSpec k files := by
  have H : ∀ (n : Nat) (files : List (List ρ)), files.length = n →
      sequentialBatch k files = flushChunksSpec k files := by
    intro n
    induction n using Nat.strong_induction_on with
    | _ n ih =>
        intro files hn
        by_cases hlen : k ≤ files.length
        · rw [sequentialBatch_chunk k hk files hlen, flushChunksSpec,
            dif_pos ⟨hk, hlen⟩]
          have hlt : (files.drop k).length < n := by
            simp only [List.length_drop]
            omega
          rw [ih _ hlt _ rfl]
        · rw [sequentialBatch_small k hk files (by omega), flushChunksSpec,
            dif_neg (by omega)]
  exact H files.length files rfl

/-- No record is dropped or written twice by sequential batching: the
concatenation of all flushed datasets is the concatenation of all files'
records, in order. -/
theorem sequentialBatch_flatten {ρ : Type} (k : Nat) (hk : 0 < k)
    (files : List (List ρ)) :
    (sequentialBatch k files).flatten = files.flatten := by
  have H : ∀ (n : Nat) (files : List (List ρ)), files.length = n →
      (sequentialBatch k files).flatten = files.flatten := by
    intro n
    induction n using Nat.strong_induction_on with
    | _ n ih =>
        intro files hn
        by_cases hlen : k ≤ files.length
        · rw [sequentialBatch_chunk k hk files hlen]
          have hlt : (files.drop k).length < n := by
            simp only [List.length_drop]
            omega
          rw [List.flatten_cons, ih _ hlt _ rfl, ← List.flatten_append,
            List.take_append_drop]
        · rw [sequentialBatch_small k hk files (by omega)]
          by_cases he : files.flatten.isEmpty
          · simp only [if_pos he, List.flatten_nil]
            exact (List.isEmpty_iff.mp he).symm
          · simp [if_neg he]
  exact H files.length files rfl

/-- Exact number of flush events of the sequential-batched strategy:
one per full chunk of `k` files, plus a trailing flush exactly when the
final partial chunk contributed at least one record. -/
theorem sequentialBatch_length {ρ : Type} (k : Nat) (hk : 0 < k)
    (files : List (List ρ)) :
    (sequentialBatch k files).length
      = files.length / k
        + (if (files.drop (files.length / k * k)).flatten.isEmpty then 0
           else 1) := by
  have H : ∀ (n : Nat) (files : List (List ρ)), files.length = n →
      (sequentialBatch k files).length
        = files.length / k
          + (if (files.drop (files.length / k * k)).flatten.isEmpty then 0
             else 1) := by
    intro n
    induction n using Nat.strong_induction_on with
    | _ n ih =>
        intro files hn
        by_cases hlen : k ≤ files.length
        · rw [sequentialBatch_chunk k hk files hlen]
          have hlt : (files.drop k).length < n := by
            simp only [List.length_drop]
            omega
          have hdiv : files.length / k = (files.length - k) / k + 1 :=
            Nat.div_eq_sub_div hk hlen
          have hdroplen : (files.drop k).length = files.length - k := by
            simp
          have hdrop2 : (files.drop k).drop ((files.length - k) / k * k)
              = files.drop (files.length / k * k) := by
            rw [List.drop_drop]
            congr 1
            rw [hdiv]
            ring_nf
          have hrec := ih _ hlt (files.drop k) rfl
          rw [hdroplen, hdrop2] at hrec
          simp only [List.length_cons, hrec, hdiv]
          omega
        · rw [sequentialBatch_small k hk files (by omega)]
          have hdiv0 : files.length / k = 0 := Nat.div_eq_of_lt (by omega)
          rw [hdiv0]
          simp only [Nat.zero_mul, List.drop_zero, Nat.zero_add]
          by_cases he : files.flatten.isEmpty
          · simp [he]
          · simp [he]
  exact H files.length files rfl

-- ## Wildcard-pattern grouping (`pattern_batched` strategy)

/-- `input_file_batch_pattern.split("*")`: the literal segments of the
wildcard pattern (line 402-407).  The code escapes `"."` before turning
the segments into regex groups, so each segment matches itself literally;
the model therefore treats segments as plain character lists (it covers
patterns whose non-wildcard characters carry no regex meaning besides the
escaped dot). -/
def splitOnStar : List Char → List (List Char)
  | [] => [[]]
  | c :: rest =>
      if c = '*' then [] :: splitOnStar rest
      else
        match splitOnStar rest with
        | [] => [[c]]
        | seg :: segs => (c :: seg) :: segs

/-- A gap consumed by a `.*` in the constructed regex: `.` does not match a
newline. -/
def gapOK (l : List Char) : Bool := l.all (fun c => c != '\n')

/-- Scan for a feasible occurrence of literal `L` reachable through a
newline-free gap, where `test` decides whether the rest of the regex can
match the remaining suffix. -/
def feasScan (L : List Char) (test : List Char → Bool) : List Char → Bool
  | [] => L.isEmpty && test []
  | c :: s' =>
      (L.isPrefixOf (c :: s') && test ((c :: s').drop L.length))
        || (c != '\n' && feasScan L test s')

/-- Whether the regex fragment `.*(L1).*(L2)...` (a `.*` before each
remaining literal) can match the whole decision point onwards, i.e. the
literals occur in order, separated by newline-free gaps. -/
def feasible : List (List Char) → List Char → Bool
  | [], _ => true
  | L :: rest, s => feasScan L (feasible rest) s

/-- Whether consuming a gap of exactly `n` characters works here: the gap
is newline-free, the literal matches right after it, and the rest of the
regex can match the remainder. -/
def gapCand (L : List Char) (test : List Char → Bool) (s : List Char)
    (n : Nat) : Bool :=
  gapOK (s.take n) && L.isPrefixOf (s.drop n)
    && test ((s.drop n).drop L.length)

/-- Largest workable gap length `≤ n` (the greedy `.*`: Python's engine
tries the longest gap first and backtracks). -/
def bestGapAux (L : List Char) (test : List Char → Bool) (s : List Char) :
    Nat → Option Nat
  | 0 => if gapCand L test s 0 then some 0 else none
  | n + 1 =>
      if gapCand L test s (n + 1) then some (n + 1) else bestGapAux L test s n

/-- Greedy match of `.*(L1).*(L2)...` against a prefix of `s`; returns the
suffix of `s` after the match end. -/
def matchTail : List (List Char) → List Char → Option (List Char)
  | [], s => some s
  | L :: rest, s =>
      match bestGapAux L (feasible rest) s s.length with
      | none => none
      | some n => matchTail rest ((s.drop n).drop L.length)

/-- Greedy match of the whole constructed regex
`(L0).*(L1).*...(Lk)` anchored at the start of `s` (the first literal has
no preceding `.*`); returns the suffix after the match end. -/
def matchAnchored (lits : List (List Char)) (s : List Char) :
    Option (List Char) :=
  match lits with
  | [] => some s
  | L :: rest => if L.isPrefixOf s then matchTail rest (s.drop L.length) else none

/-- The scan of Python `re.sub`: at each position try an anchored match;
on a non-empty match emit the replacement and continue after the match, on
an empty match emit the replacement and advance one character, otherwise
copy one character.  The fuel argument (`≥ length + 1`) only drives
structural recursion; each step consumes at least one unit. -/
def reSubAux (lits : List (List Char)) (rep : List Char) :
    Nat → List Char → List Char
  | 0, _ => []
  | fuel + 1, s =>
      match matchAnchored lits s with
      | some remainder =>
          if remainder.length < s.length then
            rep ++ reSubAux lits rep fuel remainder
          else
            match s with
            | [] => rep
            | c :: s' => rep ++ c :: reSubAux lits rep fuel s'
      | none =>
          match s with
          | [] => []
          | c :: s' => c :: reSubAux lits rep fuel s'

/-- `re.sub(self._sub_from, self._sub_to, basename)` (lines 185-187) for
the regex and replacement constructed in `_infer_save_strategy`
(lines 402-410): each match of `(L0).*(L1)...` is replaced by the captured
literals joined with `"x"`. -/
def reSub (lits : List (List Char)) (rep : List Char) (s : List Char) :
    List Char :=
  reSubAux lits rep (s.length + 1) s

/-- The canonical group key the `pattern_batched` strategy computes for one
basename: `re.sub` with the pattern's literal segments as groups and the
segments joined by `"x"` as replacement (lines 402-410 build `_sub_from` /
`_sub_to`; line 185 applies them). -/
def wildcardKey (pat : List Char) (bname : List Char) : List Char :=
  let lits := splitOnStar pat
  reSub lits (List.intercalate ['x'] lits) bname

/-- `os.path.basename`: the part of the path after the last `/`. -/
def basename (s : List Char) : List Char :=
  s.foldl (fun acc c => if c = '/' then [] else acc ++ [c]) []

/-- Python string `<` (lexicographic by code point), used by
`sorted(args, key=lambda p: p[0])` on line 184. -/
def strLt : List Char → List Char → Bool
  | [], [] => false
  | [], _ :: _ => true
  | _ :: _, [] => false
  | a :: as, b :: bs =>
      if a.val < b.val then true
      else if b.val < a.val then false
      else strLt as bs

/-- The total order used for sorting: `a ≤ b`. -/
def strLe (a b : List Char) : Bool := !(strLt b a)

/-- Stable insertion of `x` into a sorted list. -/
def insertLe {α : Type} (le : α → α → Bool) (x : α) : List α → List α
  | [] => [x]
  | y :: rest => if le x y then x :: y :: rest else y :: insertLe le x rest

/-- Stable sort (Python's `sorted` is stable). -/
def insSortBy {α : Type} (le : α → α → Bool) : List α → List α
  | [] => []
  | x :: rest => insertLe le x (insSortBy le rest)

/-- `groups[group].append(...)` with `OrderedDict` semantics
(lines 183-190): append to an existing group, else create the group at the
end (first-seen key order). -/
def addToGroup {β : Type} (gs : List (List Char × List β)) (key : List Char)
    (x : β) : List (List Char × List β) :=
  match gs with
  | [] => [(key, [x])]
  | (k, xs) :: rest =>
      if k = key then (k, xs ++ [x]) :: rest
      else (k, xs) :: addToGroup rest key x

/-- The grouping loop of `execute` under the `pattern_batched` strategy
(lines 182-190): the `(i3_file, gcd_file)` pairs are sorted by i3-file
path, each basename is mapped to its group key by `re.sub`, and groups are
collected in first-seen key order. -/
def patternGroups (pat : List Char) (pairs : List (List Char × List Char)) :
    List (List Char × List (List Char × List Char)) :=
  (insSortBy (fun a b => strLe a.1 b.1) pairs).foldl
    (fun gs pr => addToGroup gs (wildcardKey pat (basename pr.1)) pr) []

example :
    wildcardKey ("run*_part*.i3".toList) ("run1_part1.i3".toList)
      = "runx_partx.i3".toList := by decide

example :
    wildcardKey ("run*_part*.i3".toList) ("run2_part1.i3".toList)
      = "runx_partx.i3".toList := by decide

example :
    wildcardKey ("run*_part*.i3".toList) ("other.i3".toList)
      = "other.i3".toList := by decide

-- ## Orchestrator control flow (`__call__` / `execute`)

/-- Observable events of one `DataConverter` run, in order:
`loggedNoFiles` is the `"ERROR: No files found"` log plus early return
(lines 133-135); `savedFilenames` is the provenance CSV write
`_save_filenames(i3_files)` (line 138, writing `config/i3files.csv` in
discovery order); `shuffled` is `pairwise_shuffle` (line 141);
`initialised` is the implementation-specific `initialise()` (line 144);
`flushed u` is one `save_data` call for flush unit `u` during dispatch;
`warnedInterrupt` is the `except KeyboardInterrupt` warning log
(lines 211-212); `finalised` is `finalise()` (line 150). -/
inductive Ev where
  | loggedNoFiles
  | savedFilenames (files : List String)
  | shuffled
  | initialised
  | flushed (u : Nat)
  | warnedInterrupt
  | finalised
deriving DecidableEq, Repr

/-- The events of `execute` (lines 152-212): the selected strategy's
dispatch loop performs one `save_data` per flush unit, wrapped in
`try ... except KeyboardInterrupt`.  `interrupt = none` models an
uninterrupted run; `interrupt = some j` models a `KeyboardInterrupt`
raised after `j` flush units completed: the remaining units are not
flushed, the handler logs a warning exactly once, and the exception is
not re-raised (the function returns normally). -/
def executeEvents (units : List Nat) (interrupt : Option Nat) : List Ev :=
  match interrupt with
  | none => units.map Ev.flushed
  | some j => (units.take j).map Ev.flushed ++ [Ev.warnedInterrupt]

/-- The events of `__call__` (lines 122-150): discovery either finds no
files (log an error and return, performing nothing else) or the
orchestrator writes the provenance CSV, shuffles, runs the
implementation-specific initialisation, dispatches via `execute`, and then
always runs `finalise` — including after a dispatch aborted by
`KeyboardInterrupt`, because `execute` swallows the interrupt
(lines 211-212) and `__call__` proceeds to line 150. -/
def callEvents (files : List String) (units : List Nat)
    (interrupt : Option Nat) : List Ev :=
  if files.isEmpty then [Ev.loggedNoFiles]
  else
    Ev.savedFilenames files :: Ev.shuffled :: Ev.initialised ::
      (executeEvents units interrupt ++ [Ev.finalised])

-- ## Further helper lemmas

/-- Readable and unreadable frames partition a file. -/
theorem countReadable_add_none {φ : Type} (frames : List (Option φ)) :
    countReadable frames
        + (frames.filter (fun o => o.isNone)).length = frames.length := by
  induction frames with
  | nil => simp [countReadable]
  | cons hd tl ih =>
      cases hd with
      | none =>
          simp only [countReadable, List.filterMap_cons, List.filter_cons] at ih ⊢
          simp at ih ⊢
          omega
      | some f =>
          simp only [countReadable, List.filterMap_cons, List.filter_cons] at ih ⊢
          simp at ih ⊢
          omega

/-- If the constructed regex matches at no position of `s`, the `re.sub`
scan copies `s` unchanged. -/
theorem reSubAux_no_match (lits : List (List Char)) (rep : List Char) :
    ∀ (fuel : Nat) (s : List Char),
      (∀ i, i ≤ s.length → matchAnchored lits (s.drop i) = none) →
      s.length < fuel →
      reSubAux lits rep fuel s = s := by
  intro fuel
  induction fuel with
  | zero => intro s _ hlt; omega
  | succ fuel ih =>
      intro s hno hlt
      have h0 : matchAnchored lits s = none := by
        simpa using hno 0 (by omega)
      cases s with
      | nil => simp [reSubAux, h0]
      | cons c s' =>
          have hno' : ∀ i, i ≤ s'.length → matchAnchored lits (s'.drop i) = none := by
            intro i hi
            have := hno (i + 1) (by simp; omega)
            simpa using this
          simp only [reSubAux, h0]
          rw [ih s' hno' (by simp at hlt ⊢; omega)]

-- ## Claim theorems

/-- C2: save-strategy inference is total and exclusive and agrees with the
spec's three priority rules on all inputs; in particular the spec's four
test vectors hold (wildcard pattern alone gives the pattern strategy;
batch size plus sequential pattern give sequential batching; nothing gives
per-file; batch size alone is an incomplete-configuration error). -/
theorem claim_C2_strategy_inference :
    (∀ (nb : Option Nat) (sp fp : Option String),
        inferSaveStrategy nb sp fp = strategySpecRules nb sp fp)
      ∧ inferSaveStrategy none none (some "*.i3")
          = Except.ok (SaveStrategy.patternBatched, [])
      ∧ inferSaveStrategy (some 10) (some "batch_p") none
          = Except.ok (SaveStrategy.sequentialBatched, [])
      ∧ inferSaveStrategy none none none
          = Except.ok (SaveStrategy.oneToOne, [])
      ∧ inferSaveStrategy (some 10) none none
          = Except.error ConfigError.incompleteConfiguration := by
  refine ⟨?_, rfl, rfl, rfl, rfl⟩
  intro nb sp fp
  cases fp with
  | some p => rfl
  | none => cases nb <;> cases sp <;> rfl

/-- C6: a read failure of a single record only skips that record: the
per-file processor is a total function (the bare `except` swallows the
read error), processing continues with the later records, and a 100-record
file with exactly one unreadable record yields exactly 99 extraction
records. -/
theorem claim_C6_skip_bad_record {φ : Type} (exts : List (String × (φ → Row)))
    (idxCol : String) (c : Nat) (frames : List (Option φ))
    (hlen : frames.length = 100)
    (hbad : (frames.filter (fun o => o.isNone)).length = 1) :
    (processFile exts idxCol c frames).1.length = 99 := by
  have h := processFile_length exts idxCol c frames
  have hpart := countReadable_add_none frames
  omega

/-- C6 witness: one unreadable record in the middle of a concrete
100-record file leaves 99 extracted records. -/
theorem claim_C6_skip_bad_record_witness :
    (processFile [("truth", fun (_ : Nat) => ([] : Row))] "event_no" 0
        (List.replicate 50 (some 0) ++ [none] ++ List.replicate 49 (some 0))).1.length
      = 99 :=
  claim_C6_skip_bad_record _ _ _ _ (by decide) (by decide)

/-- C3 counterexample: grouping `["run1_part1.i3", "run1_part2.i3",
"run2_part1.i3"]` with wildcard pattern `"run*_part*.i3"` does NOT produce
two groups: the `re.sub` group key drops the wildcard-matched segments, so
the run number is erased and all three files receive the same key. -/
theorem claim_C3_counterexample :
    ¬ ((patternGroups ("run*_part*.i3".toList)
        [("run1_part1.i3".toList, "g1".toList),
         ("run1_part2.i3".toList, "g2".toList),
         ("run2_part1.i3".toList, "g3".toList)]).length = 2) := by decide

/-- C3 (amended): grouping those filenames with pattern `"run*_part*.i3"`
produces exactly ONE group, keyed by the pattern's literal segments joined
with `"x"` (`"runx_partx.i3"`), holding all three pairs in sorted
first-seen order: the group key keeps only the non-wildcard literal parts
of the match (plus any unmatched part of the basename), so filenames from
distinct runs DO collide whenever the distinguishing characters are
consumed by a wildcard. -/
theorem claim_C3_one_group :
    patternGroups ("run*_part*.i3".toList)
        [("run1_part1.i3".toList, "g1".toList),
         ("run1_part2.i3".toList, "g2".toList),
         ("run2_part1.i3".toList, "g3".toList)]
      = [("runx_partx.i3".toList,
          [("run1_part1.i3".toList, "g1".toList),
           ("run1_part2.i3".toList, "g2".toList),
           ("run2_part1.i3".toList, "g3".toList)])] := by decide

/-- C4 counterexample: with one input file holding zero records and
`nb_files_to_batch = 10`, the claimed `ceil(n/k) = 1` flush does not
happen: the trailing flush is guarded by `len(dataset) > 0` (records, not
files), so nothing is flushed at all. -/
theorem claim_C4_counterexample :
    ¬ ((sequentialBatch 10 [([] : List Nat)]).length = (1 + 10 - 1) / 10) := by
  decide

/-- C4 (amended): under the sequential-batched strategy the flush loop
equals the chunked specification: exactly one flush per full batch of `k`
files (after every `k`-th processed file, even if those files held no
records), plus one trailing flush exactly when the remaining `n mod k`
files contributed at least one record; every flush holds exactly its
files' records in order and the concatenation of all flushes is all
records (none dropped, none duplicated). -/
theorem claim_C4_flush_structure {ρ : Type} (k : Nat) (files : List (List ρ))
    (hk : 0 < k) :
    sequentialBatch k files = flushChunksSpec k files
      ∧ (sequentialBatch k files).flatten = files.flatten
      ∧ (sequentialBatch k files).length
          = files.length / k
            + (if (files.drop (files.length / k * k)).flatten.isEmpty then 0
               else 1) :=
  ⟨sequentialBatch_eq_flushChunksSpec k hk files,
   sequentialBatch_flatten k hk files,
   sequentialBatch_length k hk files⟩

/-- C4 witness: 25 one-record files with `nb_files_to_batch = 10` flush
three times, with the records of 10, 10 and 5 files respectively. -/
theorem claim_C4_flush_structure_witness :
    (sequentialBatch 10 (List.replicate 25 [(0 : Nat)])).map List.length
        = [10, 10, 5]
      ∧ sequentialBatch 10 (List.replicate 25 [(0 : Nat)])
          = flushChunksSpec 10 (List.replicate 25 [(0 : Nat)]) :=
  ⟨by decide,
   (claim_C4_flush_structure 10 (List.replicate 25 [(0 : Nat)]) (by decide)).1⟩

/-- C5 counterexample: a basename the wildcard pattern does not match at
all (`"other.i3"` against `"run*_part*.i3"`) raises nothing: `re.sub`
leaves the basename unchanged, and the file is silently assigned to a
group keyed by its own basename — exactly what the claim says must not
happen (no `PatternMismatchError` exists anywhere in the code). -/
theorem claim_C5_counterexample :
    patternGroups ("run*_part*.i3".toList) [("other.i3".toList, "g".toList)]
      = [("other.i3".toList, [("other.i3".toList, "g".toList)])] := by decide

/-- C5 (amended): when the constructed regex matches at no position of a
file's basename, grouping does not raise: `re.sub` returns the basename
unchanged and the file is silently assigned to a group keyed by its own
basename. -/
theorem claim_C5_zero_match_silent (pat f g : List Char)
    (h : ∀ i, i ≤ (basename f).length →
        matchAnchored (splitOnStar pat) ((basename f).drop i) = none) :
    patternGroups pat [(f, g)] = [(basename f, [(f, g)])] := by
  have hkey : wildcardKey pat (basename f) = basename f := by
    unfold wildcardKey reSub
    exact reSubAux_no_match _ _ _ _ h (by omega)
  simp [patternGroups, insSortBy, insertLe, addToGroup, hkey]

/-- C5 witness: the concrete non-matching basename, via the amended
theorem. -/
theorem claim_C5_zero_match_silent_witness :
    patternGroups ("run*_part*.i3".toList) [("other.i3".toList, "g".toList)]
      = [(basename ("other.i3".toList),
          [("other.i3".toList, "g".toList)])] :=
  claim_C5_zero_match_silent _ _ _ (by decide)

/-- C7 counterexample: `finalise` DOES execute for a run whose dispatch was
aborted by `KeyboardInterrupt` — `execute` swallows the interrupt
(lines 211-212) and `__call__` unconditionally proceeds to `finalise()`
(line 150), contradicting the claim that finalizing does not execute for
an aborted run. -/
theorem claim_C7_counterexample :
    Ev.finalised ∈ callEvents ["a"] [0] (some 0) := by decide

/-- C7 (amended): an interruption during dispatch is caught exactly once
at the `execute` boundary, a warning is logged exactly once, nothing
further is flushed (only the units completed before the interrupt), and
the call returns normally — but the finalizing step still executes, for
interrupted and uninterrupted runs alike (whenever at least one file was
discovered, even with zero flushes). -/
theorem claim_C7_interrupt_handling (files : List String) (units : List Nat)
    (interrupt : Option Nat) (j : Nat) (hf : files ≠ []) :
    (interrupt = some j →
        callEvents files units interrupt
          = Ev.savedFilenames files :: Ev.shuffled :: Ev.initialised ::
              ((units.take j).map Ev.flushed
                ++ [Ev.warnedInterrupt, Ev.finalised])
          ∧ (callEvents files units interrupt).count Ev.warnedInterrupt = 1
          ∧ (∀ u, Ev.flushed u ∈ callEvents files units interrupt
              → u ∈ units.take j))
      ∧ Ev.finalised ∈ callEvents files units interrupt := by
  have hne : ¬ (files.isEmpty = true) := by
    simpa [List.isEmpty_iff] using hf
  constructor
  · intro hint
    subst hint
    refine ⟨?_, ?_, ?_⟩
    · unfold callEvents executeEvents
      rw [if_neg hne]
      simp
    · unfold callEvents executeEvents
      rw [if_neg hne]
      have h0 : ((units.take j).map Ev.flushed).count Ev.warnedInterrupt = 0 := by
        apply List.count_eq_zero.mpr
        intro hmem
        rcases List.mem_map.mp hmem with ⟨u, _, hu⟩
        simp at hu
      have h0' : (List.take j (List.map Ev.flushed units)).count
          Ev.warnedInterrupt = 0 := by
        rw [← List.map_take]
        exact h0
      simp [List.count_cons, List.count_append, h0, h0']
    · intro u hu
      unfold callEvents at hu
      rw [if_neg hne] at hu
      simp only [executeEvents] at hu
      rw [List.mem_cons, List.mem_cons, List.mem_cons, List.mem_append,
        List.mem_append] at hu
      rcases hu with h1 | h1 | h1 | hx
      · cases h1
      · cases h1
      · cases h1
      · rcases hx with hx1 | hfin
        · rcases hx1 with hmapm | hwarn
          · rcases List.mem_map.mp hmapm with ⟨w, hw, hwu⟩
            have huw : w = u := by injection hwu
            exact huw ▸ hw
          · rcases List.mem_cons.mp hwarn with h2 | h2
            · cases h2
            · cases h2
        · rcases List.mem_cons.mp hfin with h2 | h2
          · cases h2
          · cases h2
  · unfold callEvents
    rw [if_neg hne]
    cases interrupt <;> simp [executeEvents]

/-- C7 witness: a concrete interrupted run with two flush units, cut off
after the first. -/
theorem claim_C7_interrupt_handling_witness :
    callEvents ["a"] [0, 1] (some 1)
      = Ev.savedFilenames ["a"] :: Ev.shuffled :: Ev.initialised ::
          ((([0, 1] : List Nat).take 1).map Ev.flushed
            ++ [Ev.warnedInterrupt, Ev.finalised]) :=
  (((claim_C7_interrupt_handling ["a"] [0, 1] (some 1) 1 (by decide)).1) rfl).1

/-- C8: when discovery finds zero event files, the main call only logs the
condition and returns normally: the whole trace is the single log event —
no provenance write, no shuffle, no initialisation, no flush, no
finalisation. -/
theorem claim_C8_zero_files (units : List Nat) (interrupt : Option Nat) :
    callEvents [] units interrupt = [Ev.loggedNoFiles] := rfl

/-- C10: in every run that discovered at least one file, the provenance
CSV write is the very first event — before shuffling, before
implementation-specific initialisation and before any flush — regardless
of whether the run is later interrupted during dispatch. -/
theorem claim_C10_provenance_first (files : List String) (units : List Nat)
    (interrupt : Option Nat) (hf : files ≠ []) :
    (callEvents files units interrupt).head? = some (Ev.savedFilenames files)
      ∧ ∃ rest, callEvents files units interrupt
          = Ev.savedFilenames files :: Ev.shuffled :: Ev.initialised :: rest := by
  have hne : ¬ (files.isEmpty = true) := by
    simpa [List.isEmpty_iff] using hf
  unfold callEvents
  rw [if_neg hne]
  exact ⟨rfl, _, rfl⟩

/-- C10 witness: a concrete interrupted run still has the provenance write
as its first event. -/
theorem claim_C10_provenance_first_witness :
    (callEvents ["a"] [0] (some 0)).head? = some (Ev.savedFilenames ["a"]) :=
  (claim_C10_provenance_first ["a"] [0] (some 0) (by decide)).1
